import Mathlib

/-!
Verification of the core synchronization primitives of the repository:
the single-slot `OneShotChannel`, the `SpinLock`/`Guard` pair, and the
`Arc`/`Weak` reference-counted pointer, shallowly embedded from the Rust
sources (`src/channels/one_shot_channel.rs`, `src/locks/spin_lock.rs`,
`src/reference_counting/arc_weak_data.rs`).

Atomic operations are modelled as sequentially-consistent atomic steps on
explicit state records; `usize` counters are natural numbers reduced
modulo `2 ^ 64` exactly where the Rust `fetch_add`/`fetch_sub` wrap.
Fallible paths (panics, process aborts, reads of uninitialized memory)
are made explicit in result types.
-/

namespace AtomicsAndLocks

/-! ## OneShotChannel (src/channels/one_shot_channel.rs)

State tags, the channel record, and the operations `send`, `is_ready`,
`receive` and the `Drop` implementation.  The `message` slot is a
`MaybeUninit<T>`: we model it as `Option T`, where `none` stands for
uninitialized memory; reading or dropping the slot while it is `none`
would be undefined behaviour in the source and is surfaced as a distinct
result constructor. -/

def EMPTY : Nat := 0

def WRITING : Nat := 1

def READY : Nat := 2

def READING : Nat := 3

structure OneShotChannel (T : Type) where
  message : Option T
  state : Nat
deriving DecidableEq, Repr

namespace OneShotChannel

/-- `OneShotChannel::new`: an uninitialized slot and state `EMPTY`. -/
def new (T : Type) : OneShotChannel T := ⟨none, EMPTY⟩

/-- Result of `send`: either the updated channel, or the panic
("A message is already being sent!") with the channel left as it was,
since the failed compare-exchange performs no store. -/
inductive SendResult (T : Type) where
  | ok (c : OneShotChannel T)
  | violation (c : OneShotChannel T)
deriving DecidableEq, Repr

/-- `OneShotChannel::send`: compare-exchange `EMPTY → WRITING` (relaxed);
on failure, panic.  On success, write the message into the slot and
store `READY` (release).  The `WRITING` interval is internal to the
single atomic step of this sequential model. -/
def send (c : OneShotChannel T) (v : T) : SendResult T :=
  if c.state = EMPTY then .ok ⟨some v, READY⟩
  else .violation c

/-- `OneShotChannel::is_ready`: relaxed load compared against `READY`. -/
def is_ready (c : OneShotChannel T) : Bool :=
  c.state = READY

/-- Result of `receive`: the value moved out together with the updated
channel; the panic ("No message available!") with the channel unchanged;
or an undefined-behaviour marker for `assume_init_read` on an
uninitialized slot (unreachable from the safe interface). -/
inductive RecvResult (T : Type) where
  | ok (v : T) (c : OneShotChannel T)
  | violation (c : OneShotChannel T)
  | uninitRead
deriving DecidableEq, Repr

/-- `OneShotChannel::receive`: compare-exchange `READY → READING`
(acquire); on failure, panic.  On success, `assume_init_read` the slot
and store `EMPTY` (release).  The moved-out bits stay in the
`MaybeUninit` slot, so `message` is unchanged. -/
def receive (c : OneShotChannel T) : RecvResult T :=
  if c.state = READY then
    match c.message with
    | some v => .ok v { c with state := EMPTY }
    | none => .uninitRead
  else .violation c

/-- Effect of `Drop for OneShotChannel`: the value destroyed by
`assume_init_drop` when the state is `READY`, nothing otherwise, or the
undefined-behaviour marker for dropping an uninitialized slot. -/
inductive DropEffect (T : Type) where
  | destroyed (v : T)
  | nothing
  | uninitDrop
deriving DecidableEq, Repr

/-- `Drop for OneShotChannel`: if `*self.state.get_mut() == READY`,
`assume_init_drop` the slot; otherwise do nothing. -/
def drop (c : OneShotChannel T) : DropEffect T :=
  if c.state = READY then
    match c.message with
    | some v => .destroyed v
    | none => .uninitDrop
  else .nothing

end OneShotChannel

end AtomicsAndLocks

namespace AtomicsAndLocks

open OneShotChannel

/-- C2: for every value `v`, `send v` on a channel whose state is `EMPTY`
followed by `receive` succeeds, returns exactly `v`, and leaves the
channel state `EMPTY` again. -/
theorem one_shot_send_receive_round_trip {T : Type} (c : OneShotChannel T)
    (v : T) (h : c.state = EMPTY) :
    ∃ c1 c2, c.send v = .ok c1 ∧ c1.receive = .ok v c2 ∧ c2.state = EMPTY := by
  refine ⟨⟨some v, READY⟩, ⟨some v, EMPTY⟩, ?_, ?_, rfl⟩
  · simp [OneShotChannel.send, h]
  · simp [OneShotChannel.receive, READY, EMPTY]

/-- Witness for C2 at a concrete channel and value. -/
theorem one_shot_send_receive_round_trip_witness :
    ∃ c1 c2, (OneShotChannel.new Nat).send 37 = .ok c1 ∧
      c1.receive = .ok 37 c2 ∧ c2.state = EMPTY :=
  one_shot_send_receive_round_trip (OneShotChannel.new Nat) 37 rfl

/-- C3: `send` signals the protocol violation exactly when the state is
not `EMPTY`, `receive` signals it exactly when the state is not `READY`,
and each failure returns the channel unchanged (state tag and slot). -/
theorem one_shot_protocol_violation_exact {T : Type} (c : OneShotChannel T)
    (v : T) :
    ((∃ c', c.send v = .violation c') ↔ c.state ≠ EMPTY) ∧
    (c.state ≠ EMPTY → c.send v = .violation c) ∧
    ((∃ c', c.receive = .violation c') ↔ c.state ≠ READY) ∧
    (c.state ≠ READY → c.receive = .violation c) := by
  refine ⟨?_, ?_, ?_, ?_⟩
  · constructor
    · rintro ⟨c', hc'⟩ he
      simp [OneShotChannel.send, he] at hc'
    · intro he
      exact ⟨c, by simp [OneShotChannel.send, he]⟩
  · intro he
    simp [OneShotChannel.send, he]
  · constructor
    · rintro ⟨c', hc'⟩ he
      rcases hm : c.message with _ | w <;>
        simp [OneShotChannel.receive, he, hm] at hc'
    · intro he
      exact ⟨c, by simp [OneShotChannel.receive, he]⟩
  · intro he
    simp [OneShotChannel.receive, he]

/-- Witness for C3: a channel in state `READY` rejects `send` and a
channel in state `EMPTY` rejects `receive`, each left unchanged. -/
theorem one_shot_protocol_violation_exact_witness :
    (⟨some 5, READY⟩ : OneShotChannel Nat).send 7 =
        .violation ⟨some 5, READY⟩ ∧
      (OneShotChannel.new Nat).receive = .violation (OneShotChannel.new Nat) :=
  ⟨(one_shot_protocol_violation_exact (⟨some 5, READY⟩ : OneShotChannel Nat)
      7).2.1 (by decide),
    (one_shot_protocol_violation_exact (OneShotChannel.new Nat) 7).2.2.2
      (by decide)⟩

/-- C6: destroying a channel destroys the slot's value exactly once when
the state is `READY` (given the representation fact that a `READY`
channel's slot is initialized), and destroys nothing when the state is
`EMPTY`, `WRITING` or `READING`. -/
theorem one_shot_drop_destroys_exactly_ready {T : Type}
    (c : OneShotChannel T) (hwf : c.state = READY → c.message.isSome = true) :
    (c.state = READY → ∃ v, c.drop = .destroyed v ∧ c.message = some v) ∧
    (c.state = EMPTY ∨ c.state = WRITING ∨ c.state = READING →
      c.drop = .nothing) := by
  constructor
  · intro hr
    rcases hm : c.message with _ | v
    · simp [hm] at hwf
      exact absurd hr hwf
    · exact ⟨v, by simp [OneShotChannel.drop, hr, hm], rfl⟩
  · intro hs
    have : c.state ≠ READY := by
      rcases hs with h | h | h <;> simp [h, EMPTY, WRITING, READING, READY]
    simp [OneShotChannel.drop, this]

/-- Witness for C6: a `READY` channel destroys its value, an `EMPTY` one
destroys nothing. -/
theorem one_shot_drop_destroys_exactly_ready_witness :
    (∃ v, (⟨some 5, READY⟩ : OneShotChannel Nat).drop = .destroyed v ∧
        (⟨some 5, READY⟩ : OneShotChannel Nat).message = some v) ∧
      (OneShotChannel.new Nat).drop = .nothing :=
  ⟨(one_shot_drop_destroys_exactly_ready (⟨some 5, READY⟩ : OneShotChannel Nat)
      (by decide)).1 rfl,
    (one_shot_drop_destroys_exactly_ready (OneShotChannel.new Nat)
      (by decide)).2 (Or.inl rfl)⟩

/-! ## SpinLock (src/locks/spin_lock.rs)

The lock is an atomic boolean `locked` flag next to the protected
`value`.  `lock` loops on `compare_exchange_weak(false, true)`; the model
gives the loop explicit fuel (the number of CAS attempts).  `Guard`'s
`Drop` and the public `unlock` method both store `false` into the flag. -/

structure SpinLock (T : Type) where
  locked : Bool
  value : T
deriving DecidableEq, Repr

namespace SpinLock

/-- `SpinLock::new`: flag `false`, stored value. -/
def new (v : T) : SpinLock T := ⟨false, v⟩

/-- One `compare_exchange_weak(false, true, Acquire, Relaxed)` attempt:
succeeds exactly when the flag is observed `false`. -/
def cas_attempt (s : SpinLock T) : Option (SpinLock T) :=
  if s.locked then none else some { s with locked := true }

/-- `SpinLock::lock`: spin (`spin_loop` hint) re-attempting the CAS until
it succeeds; `fuel` counts the attempts made available to the loop. -/
def lock : Nat → SpinLock T → Option (SpinLock T)
  | 0, _ => none
  | fuel + 1, s =>
    match cas_attempt s with
    | some s' => some s'
    | none => lock fuel s

/-- `Drop for Guard`: store `false` into the flag (release). -/
def guard_drop (s : SpinLock T) : SpinLock T := { s with locked := false }

/-- `SpinLock::unlock`: public method, stores `false` (release) without
taking or consuming a `Guard`. -/
def unlock (s : SpinLock T) : SpinLock T := { s with locked := false }

end SpinLock

/-- C8: whenever `lock` returns, the flag is `true` and the protected
value is untouched; dropping the returned `Guard` stores `false` into the
flag (leaving the value), after which one further CAS attempt — and hence
a subsequent `lock` call — succeeds. -/
theorem spin_lock_acquire_release {T : Type} (s : SpinLock T) (fuel : Nat)
    (s' : SpinLock T) (h : SpinLock.lock fuel s = some s') :
    s'.locked = true ∧ s'.value = s.value ∧
    (SpinLock.guard_drop s').locked = false ∧
    (SpinLock.guard_drop s').value = s'.value ∧
    SpinLock.cas_attempt (SpinLock.guard_drop s') = some ⟨true, s'.value⟩ ∧
    SpinLock.lock 1 (SpinLock.guard_drop s') = some ⟨true, s'.value⟩ := by
  induction fuel with
  | zero => simp [SpinLock.lock] at h
  | succ n ih =>
    rw [SpinLock.lock] at h
    rcases hl : s.locked with _ | _
    · simp [SpinLock.cas_attempt, hl] at h
      subst h
      simp [SpinLock.guard_drop, SpinLock.cas_attempt, SpinLock.lock]
    · simp [SpinLock.cas_attempt, hl] at h
      exact ih h

/-- Witness for C8: locking a fresh lock with one unit of fuel. -/
theorem spin_lock_acquire_release_witness :
    (⟨true, 10⟩ : SpinLock Nat).locked = true ∧
      (⟨true, 10⟩ : SpinLock Nat).value = (SpinLock.new 10).value ∧
      (SpinLock.guard_drop (⟨true, 10⟩ : SpinLock Nat)).locked = false ∧
      (SpinLock.guard_drop (⟨true, 10⟩ : SpinLock Nat)).value =
        (⟨true, 10⟩ : SpinLock Nat).value ∧
      SpinLock.cas_attempt (SpinLock.guard_drop (⟨true, 10⟩ : SpinLock Nat)) =
        some ⟨true, 10⟩ ∧
      SpinLock.lock 1 (SpinLock.guard_drop (⟨true, 10⟩ : SpinLock Nat)) =
        some ⟨true, 10⟩ :=
  spin_lock_acquire_release (SpinLock.new 10) 1 ⟨true, 10⟩ (by decide)

/-- C10: `unlock` is callable on the lock itself (no `Guard` needed),
unconditionally stores `false`, leaves the protected value unchanged, and
a subsequent `lock` attempt succeeds — even from a state in which the
flag is `true` because a `Guard` from an earlier `lock` is still alive. -/
theorem spin_lock_unlock_without_guard {T : Type} (s : SpinLock T)
    (hg : s.locked = true) :
    (SpinLock.unlock s).locked = false ∧
    (SpinLock.unlock s).value = s.value ∧
    SpinLock.cas_attempt (SpinLock.unlock s) = some ⟨true, s.value⟩ ∧
    SpinLock.lock 1 (SpinLock.unlock s) = some ⟨true, s.value⟩ := by
  refine ⟨rfl, rfl, ?_, ?_⟩ <;>
    simp [SpinLock.unlock, SpinLock.cas_attempt, SpinLock.lock]

/-- Witness for C10: unlocking a held lock. -/
theorem spin_lock_unlock_without_guard_witness :
    (SpinLock.unlock (⟨true, 3⟩ : SpinLock Nat)).locked = false ∧
      (SpinLock.unlock (⟨true, 3⟩ : SpinLock Nat)).value = 3 ∧
      SpinLock.cas_attempt (SpinLock.unlock (⟨true, 3⟩ : SpinLock Nat)) =
        some ⟨true, 3⟩ ∧
      SpinLock.lock 1 (SpinLock.unlock (⟨true, 3⟩ : SpinLock Nat)) =
        some ⟨true, 3⟩ :=
  spin_lock_unlock_without_guard (⟨true, 3⟩ : SpinLock Nat) rfl

/-! ## N threads appending under the SpinLock (claim C9)

An interleaving (sequentially consistent) model: `N` threads each run
`let g = lock(); g.push(my_item); drop(g)`.  Each atomic instruction of
the source — one CAS attempt, the append through the guard, the release
store in `Drop for Guard` — is one scheduler step.  Thread `i` appends
the distinct item `i : Fin N` to the shared `List` protected by the
`SpinLock` defined above. -/

inductive ThreadPhase where
  | start
  | own
  | appended
  | done
deriving DecidableEq, Repr

/-- Phases in which a thread holds the lock (between its successful CAS
and its release store). -/
def holdsLock : ThreadPhase → Bool
  | .own => true
  | .appended => true
  | _ => false

/-- Phases in which a thread's item is already in the shared list. -/
def hasAppended : ThreadPhase → Bool
  | .appended => true
  | .done => true
  | _ => false

/-- Global state: the `SpinLock` protecting the shared list, and each
thread's program counter. -/
structure LockSys (N : Nat) where
  lock : SpinLock (List (Fin N))
  pcs : Fin N → ThreadPhase

/-- Initial state: fresh lock around the empty list, all threads about
to call `lock()`. -/
def initSys (N : Nat) : LockSys N :=
  ⟨SpinLock.new [], fun _ => .start⟩

/-- One scheduler step: some thread executes its next atomic
instruction.  `acquire`/`spin` are the two outcomes of one
`compare_exchange_weak` attempt inside `SpinLock::lock`; `append` is the
critical-section write through the guard; `release` is the store of
`false` in `Drop for Guard`. -/
inductive LockStep (N : Nat) : LockSys N → LockSys N → Prop where
  | acquire (s : LockSys N) (i : Fin N) (t : SpinLock (List (Fin N))) :
      s.pcs i = .start → SpinLock.cas_attempt s.lock = some t →
      LockStep N s ⟨t, Function.update s.pcs i .own⟩
  | spin (s : LockSys N) (i : Fin N) :
      s.pcs i = .start → SpinLock.cas_attempt s.lock = none →
      LockStep N s s
  | append (s : LockSys N) (i : Fin N) :
      s.pcs i = .own →
      LockStep N s
        ⟨⟨s.lock.locked, i :: s.lock.value⟩, Function.update s.pcs i .appended⟩
  | release (s : LockSys N) (i : Fin N) :
      s.pcs i = .appended →
      LockStep N s ⟨SpinLock.guard_drop s.lock, Function.update s.pcs i .done⟩

/-- Inductive invariant: at most one thread holds the lock; the flag is
set exactly when some thread holds it; each thread's item occurs in the
shared list exactly once after its append and never before. -/
def lockInv {N : Nat} (s : LockSys N) : Prop :=
  (∀ i j, holdsLock (s.pcs i) = true → holdsLock (s.pcs j) = true → i = j) ∧
  (s.lock.locked = true ↔ ∃ i, holdsLock (s.pcs i) = true) ∧
  (∀ i, s.lock.value.count i = if hasAppended (s.pcs i) then 1 else 0)

theorem initSys_inv (N : Nat) : lockInv (initSys N) := by
  refine ⟨fun i j hi _ => ?_, ?_, fun i => ?_⟩
  · simp [initSys, holdsLock] at hi
  · simp [initSys, SpinLock.new, holdsLock]
  · simp [initSys, SpinLock.new, hasAppended]

theorem lockStep_preserves_inv {N : Nat} {s s' : LockSys N}
    (hinv : lockInv s) (hstep : LockStep N s s') : lockInv s' := by
  obtain ⟨hme, hflag, hcount⟩ := hinv
  cases hstep with
  | acquire i t hpc hcas =>
    have hfree : s.lock.locked = false := by
      by_contra h
      rw [Bool.not_eq_false] at h
      simp [SpinLock.cas_attempt, h] at hcas
    have ht : t = ⟨true, s.lock.value⟩ := by
      simp [SpinLock.cas_attempt, hfree] at hcas
      exact hcas.symm
    have hnone : ∀ j, holdsLock (s.pcs j) = false := by
      intro j
      by_contra h
      rw [Bool.not_eq_false] at h
      rw [hfree] at hflag
      exact absurd (hflag.mpr ⟨j, h⟩) (by simp)
    have honly : ∀ j, holdsLock (Function.update s.pcs i ThreadPhase.own j) =
        true → j = i := by
      intro j hj
      by_cases hji : j = i
      · exact hji
      · rw [Function.update_noteq hji] at hj
        rw [hnone j] at hj
        cases hj
    subst ht
    refine ⟨fun j k hj hk => (honly j hj).trans (honly k hk).symm, ?_, fun j => ?_⟩
    · exact ⟨fun _ => ⟨i, by simp [Function.update_same, holdsLock]⟩,
        fun _ => rfl⟩
    · by_cases hji : j = i
      · subst hji
        have := hcount j
        rw [show hasAppended (s.pcs j) = false by rw [hpc]; rfl] at this
        simpa [Function.update_same, hasAppended] using this
      · simpa [Function.update_noteq hji] using hcount j
  | spin i hpc hcas =>
    exact ⟨hme, hflag, hcount⟩
  | append i hpc =>
    have hold : holdsLock (s.pcs i) = true := by rw [hpc]; rfl
    refine ⟨fun j k hj hk => ?_, ?_, fun j => ?_⟩
    · have hj' : holdsLock (s.pcs j) = true := by
        by_cases hji : j = i
        · subst hji; exact hold
        · simpa [Function.update_noteq hji] using hj
      have hk' : holdsLock (s.pcs k) = true := by
        by_cases hki : k = i
        · subst hki; exact hold
        · simpa [Function.update_noteq hki] using hk
      exact hme j k hj' hk'
    · constructor
      · intro _
        exact ⟨i, by simp [Function.update_same, holdsLock]⟩
      · intro _
        exact hflag.mpr ⟨i, hold⟩
    · by_cases hji : j = i
      · subst hji
        have := hcount j
        rw [show hasAppended (s.pcs j) = false by rw [hpc]; rfl] at this
        simp [Function.update_same, hasAppended, List.count_cons, this]
      · have hne : j ≠ i := hji
        have := hcount j
        simp [Function.update_noteq hne, List.count_cons,
          (by simpa using hne : ¬ j = i), this]
  | release i hpc =>
    have hold : holdsLock (s.pcs i) = true := by rw [hpc]; rfl
    have hsole : ∀ j, holdsLock (s.pcs j) = true → j = i :=
      fun j hj => hme j i hj hold
    have hnone : ∀ j, holdsLock (Function.update s.pcs i ThreadPhase.done j) =
        false := by
      intro j
      by_cases hji : j = i
      · subst hji; simp [Function.update_same, holdsLock]
      · rw [Function.update_noteq hji]
        by_contra h
        rw [Bool.not_eq_false] at h
        exact hji (hsole j h)
    refine ⟨fun j k hj _ => ?_, ?_, fun j => ?_⟩
    · rw [hnone j] at hj; cases hj
    · constructor
      · intro h
        simp [SpinLock.guard_drop] at h
      · rintro ⟨j, hj⟩
        rw [hnone j] at hj; cases hj
    · by_cases hji : j = i
      · subst hji
        have := hcount j
        rw [show hasAppended (s.pcs j) = true by rw [hpc]; rfl] at this
        simpa [SpinLock.guard_drop, Function.update_same, hasAppended] using this
      · simpa [SpinLock.guard_drop, Function.update_noteq hji] using hcount j

theorem lockInv_reachable {N : Nat} {s : LockSys N}
    (h : Relation.ReflTransGen (LockStep N) (initSys N) s) : lockInv s := by
  induction h with
  | refl => exact initSys_inv N
  | tail hsteps hstep ih => exact lockStep_preserves_inv ih hstep

/-- C9: in the interleaving model of `N` threads each appending its own
distinct item under the `SpinLock`, any reachable state in which every
thread has finished has the shared list holding each of the `N` items
exactly once — a permutation of all `N` distinct items, nothing lost,
nothing duplicated. -/
theorem spin_lock_n_threads_exact_set (N : Nat) (s : LockSys N)
    (h : Relation.ReflTransGen (LockStep N) (initSys N) s)
    (hdone : ∀ i, s.pcs i = .done) :
    (∀ i : Fin N, s.lock.value.count i = 1) ∧
      s.lock.value.Perm (List.finRange N) := by
  obtain ⟨-, -, hcount⟩ := lockInv_reachable h
  have hone : ∀ i : Fin N, s.lock.value.count i = 1 := by
    intro i
    have := hcount i
    rw [hdone i] at this
    simpa [hasAppended] using this
  refine ⟨hone, List.perm_iff_count.mpr fun a => ?_⟩
  rw [hone a, List.count_eq_one_of_mem (List.nodup_finRange N)
    (List.mem_finRange a)]

/-- Witness for C9: one thread runs acquire, append, release to
completion; the final list is a permutation of all items. -/
theorem spin_lock_n_threads_exact_set_witness :
    (∀ i : Fin 1,
        (([0] : List (Fin 1)).count i = 1)) ∧
      ([0] : List (Fin 1)).Perm (List.finRange 1) := by
  have h1 : LockStep 1 (initSys 1)
      ⟨⟨true, []⟩, Function.update (fun _ => ThreadPhase.start) 0 .own⟩ :=
    LockStep.acquire (initSys 1) 0 ⟨true, []⟩ rfl rfl
  have h2 : LockStep 1
      ⟨⟨true, []⟩, Function.update (fun _ => ThreadPhase.start) 0 .own⟩
      ⟨⟨true, [0]⟩,
        Function.update (Function.update (fun _ => ThreadPhase.start) 0 .own)
          0 .appended⟩ :=
    LockStep.append _ 0 (by simp [Function.update_same])
  have h3 : LockStep 1
      ⟨⟨true, [0]⟩,
        Function.update (Function.update (fun _ => ThreadPhase.start) 0 .own)
          0 .appended⟩
      ⟨⟨false, [0]⟩,
        Function.update
          (Function.update (Function.update (fun _ => ThreadPhase.start) 0 .own)
            0 .appended) 0 .done⟩ :=
    LockStep.release _ 0 (by simp [Function.update_same])
  exact spin_lock_n_threads_exact_set 1 _
    (((Relation.ReflTransGen.refl.tail h1).tail h2).tail h3)
    (by intro i; fin_cases i <;> simp [Function.update_same])

/-! ## Arc / Weak (src/reference_counting/arc_weak_data.rs)

The shared `ArcData` allocation holds two `AtomicUsize` counters and the
payload slot (`UnsafeCell<Option<T>>`).  Counters are naturals reduced
modulo `2 ^ 64` exactly where `fetch_add`/`fetch_sub` wrap.  A process
abort (`std::process::abort`) or a failed `assert!` leaves no successor
state, so aborting operations return `none` / a dedicated constructor. -/

def USIZE_MOD : Nat := 18446744073709551616

def USIZE_MAX : Nat := 18446744073709551615

structure ArcData (T : Type) where
  data_ref_count : Nat
  alloc_ref_count : Nat
  data : Option T
deriving DecidableEq, Repr

namespace ArcData

/-- `Arc::new`: both counters 1, payload present. -/
def arc_new (v : T) : ArcData T := ⟨1, 1, some v⟩

/-- `Clone for Weak` (also used by `Arc::downgrade` and inside
`Weak::upgrade`): `alloc_ref_count.fetch_add(1, Relaxed)`, then abort the
process if the pre-increment value exceeded `usize::MAX / 2`. -/
def weak_clone (d : ArcData T) : Option (ArcData T) :=
  if USIZE_MAX / 2 < d.alloc_ref_count then none
  else some { d with alloc_ref_count := (d.alloc_ref_count + 1) % USIZE_MOD }

/-- `Clone for Arc`: first `self.weak.clone()`, then
`data_ref_count.fetch_add(1, Relaxed)` with the same abort guard. -/
def arc_clone (d : ArcData T) : Option (ArcData T) :=
  (weak_clone d).bind fun d1 =>
    if USIZE_MAX / 2 < d1.data_ref_count then none
    else some { d1 with data_ref_count := (d1.data_ref_count + 1) % USIZE_MOD }

/-- Outcome of `Weak::upgrade`: a new `Arc` sharing the allocation
(`Some`), `None` because the payload is gone, or a process end through
the `assert!`/abort guards. -/
inductive UpgradeResult (T : Type) where
  | upgraded (d : ArcData T)
  | gone
  | aborted
deriving DecidableEq, Repr

/-- `Weak::upgrade`: load `data_ref_count`; if zero, return `None`;
`assert!(n <= usize::MAX / 2)`; compare-exchange `n → n + 1` (relaxed; in
this sequential model the CAS succeeds first try), then `self.clone()`
for the allocation count and return the new `Arc`. -/
def upgrade (d : ArcData T) : UpgradeResult T :=
  if d.data_ref_count = 0 then .gone
  else if USIZE_MAX / 2 < d.data_ref_count then .aborted
  else
    match weak_clone
        { d with data_ref_count := (d.data_ref_count + 1) % USIZE_MOD } with
    | some d' => .upgraded d'
    | none => .aborted

/-- Outcome of `Arc::get_mut`: the exclusive payload (`Some(&mut T)`),
`None` because other owners exist, or the panic of `Option::unwrap` on an
absent payload (unreachable while an `Arc` exists). -/
inductive GetMutResult (T : Type) where
  | excl (v : T)
  | shared
  | panicked
deriving DecidableEq, Repr

/-- `Arc::get_mut`: if `alloc_ref_count.load(Relaxed) == 1`, acquire
fence and hand out the payload (`option.as_mut().unwrap()`); otherwise
`None`.  It performs no store, so the state component is returned
unchanged. -/
def get_mut (d : ArcData T) : GetMutResult T × ArcData T :=
  (if d.alloc_ref_count = 1 then
    match d.data with
    | some v => .excl v
    | none => .panicked
  else .shared, d)

/-- `Drop for Weak`: `alloc_ref_count.fetch_sub(1, Release)`; if the
pre-decrement value was 1, free the allocation (`none`). -/
def weak_drop (d : ArcData T) : Option (ArcData T) :=
  if d.alloc_ref_count = 1 then none
  else
    some { d with
      alloc_ref_count := (d.alloc_ref_count + (USIZE_MOD - 1)) % USIZE_MOD }

/-- `Drop for Arc`: `data_ref_count.fetch_sub(1, Release)`; if the
pre-decrement value was 1, acquire fence and clear the payload.  The
`Arc`'s inner `Weak` field is then dropped as well (`weak_drop`). -/
def arc_drop (d : ArcData T) : Option (ArcData T) :=
  weak_drop
    { d with
      data_ref_count := (d.data_ref_count + (USIZE_MOD - 1)) % USIZE_MOD,
      data := if d.data_ref_count = 1 then none else d.data }

end ArcData

/-! Ghost system state for the allocation: the number of live `Arc` and
`Weak` handles next to the allocation contents (`none` once freed). -/

structure ArcSys (T : Type) where
  arcs : Nat
  weaks : Nat
  alloc : Option (ArcData T)
deriving DecidableEq, Repr

/-- System state right after `Arc::new`. -/
def arc_sys_new (v : T) : ArcSys T := ⟨1, 0, some (ArcData.arc_new v)⟩

/-- One Arc/Weak operation on the shared allocation, performed through a
live handle.  Aborting paths (overflow guards) have no successor state
and panics cannot occur from live handles, so only the completing paths
appear. -/
inductive ArcStep (T : Type) : ArcSys T → ArcSys T → Prop where
  | clone_arc (s : ArcSys T) (d d' : ArcData T) :
      s.alloc = some d → 1 ≤ s.arcs → ArcData.arc_clone d = some d' →
      ArcStep T s ⟨s.arcs + 1, s.weaks, some d'⟩
  | clone_weak (s : ArcSys T) (d d' : ArcData T) :
      s.alloc = some d → 1 ≤ s.weaks → ArcData.weak_clone d = some d' →
      ArcStep T s ⟨s.arcs, s.weaks + 1, some d'⟩
  | downgrade (s : ArcSys T) (d d' : ArcData T) :
      s.alloc = some d → 1 ≤ s.arcs → ArcData.weak_clone d = some d' →
      ArcStep T s ⟨s.arcs, s.weaks + 1, some d'⟩
  | upgrade_some (s : ArcSys T) (d d' : ArcData T) :
      s.alloc = some d → 1 ≤ s.weaks → ArcData.upgrade d = .upgraded d' →
      ArcStep T s ⟨s.arcs + 1, s.weaks, some d'⟩
  | upgrade_gone (s : ArcSys T) (d : ArcData T) :
      s.alloc = some d → 1 ≤ s.weaks → ArcData.upgrade d = .gone →
      ArcStep T s s
  | get_mut_step (s : ArcSys T) (d : ArcData T) :
      s.alloc = some d → 1 ≤ s.arcs →
      ArcStep T s ⟨s.arcs, s.weaks, some (ArcData.get_mut d).2⟩
  | drop_arc (s : ArcSys T) (d : ArcData T) :
      s.alloc = some d → 1 ≤ s.arcs →
      ArcStep T s ⟨s.arcs - 1, s.weaks, ArcData.arc_drop d⟩
  | drop_weak (s : ArcSys T) (d : ArcData T) :
      s.alloc = some d → 1 ≤ s.weaks →
      ArcStep T s ⟨s.arcs, s.weaks - 1, ArcData.weak_drop d⟩

/-- Representation invariant tying the counters to the ghost handle
counts: `data_ref_count` counts the live `Arc`s, `alloc_ref_count` the
live `Arc`s and `Weak`s combined, the payload is present exactly while
an `Arc` lives, and the counts stay below the wraparound point thanks to
the overflow guards. -/
def allocInv (arcs weaks : Nat) (d : ArcData T) : Prop :=
  d.data_ref_count = arcs ∧ d.alloc_ref_count = arcs + weaks ∧
  (d.data.isSome = true ↔ 0 < arcs) ∧ 0 < arcs + weaks ∧
  arcs + weaks ≤ USIZE_MAX / 2 + 1

def repInv (s : ArcSys T) : Prop :=
  (∀ d, s.alloc = some d → allocInv s.arcs s.weaks d) ∧
  (s.alloc = none → s.arcs = 0 ∧ s.weaks = 0)

/-- The invariant stated by the specification, at the allocation level:
payload present iff `data_ref_count > 0`, the (existing) allocation has
`alloc_ref_count > 0`, and `alloc_ref_count >= data_ref_count`. -/
def countInv (d : ArcData T) : Prop :=
  (d.data.isSome = true ↔ 0 < d.data_ref_count) ∧
  0 < d.alloc_ref_count ∧ d.data_ref_count ≤ d.alloc_ref_count

def claimInv (s : ArcSys T) : Prop :=
  ∀ d, s.alloc = some d → countInv d

/-! Arithmetic facts about the wrap-around points. -/

theorem half_add_one_lt : USIZE_MAX / 2 + 1 < USIZE_MOD := by decide

theorem mod_add_one {x : Nat} (h : x ≤ USIZE_MAX / 2) :
    (x + 1) % USIZE_MOD = x + 1 :=
  Nat.mod_eq_of_lt (by have := half_add_one_lt; omega)

theorem mod_sub_one {x : Nat} (h1 : 1 ≤ x) (h2 : x ≤ USIZE_MAX / 2 + 1) :
    (x + (USIZE_MOD - 1)) % USIZE_MOD = x - 1 := by
  have hm : 1 ≤ USIZE_MOD := by decide
  have hx : x < USIZE_MOD := lt_of_le_of_lt h2 half_add_one_lt
  have hsplit : x + (USIZE_MOD - 1) = (x - 1) + USIZE_MOD := by omega
  rw [hsplit, Nat.add_mod_right, Nat.mod_eq_of_lt (by omega)]

/-! Executable behaviour of each operation, under the guards. -/

theorem weak_clone_spec {T : Type} {d d' : ArcData T}
    (h : ArcData.weak_clone d = some d') :
    d.alloc_ref_count ≤ USIZE_MAX / 2 ∧
    d' = ⟨d.data_ref_count, d.alloc_ref_count + 1, d.data⟩ := by
  unfold ArcData.weak_clone at h
  split at h
  · cases h
  · next hle =>
    push_neg at hle
    injection h with h2
    refine ⟨hle, ?_⟩
    rw [← h2, mod_add_one hle]

theorem weak_clone_none_iff {T : Type} {d : ArcData T} :
    ArcData.weak_clone d = none ↔ USIZE_MAX / 2 < d.alloc_ref_count := by
  unfold ArcData.weak_clone
  split <;> simp_all

theorem arc_clone_spec {T : Type} {d d' : ArcData T}
    (h : ArcData.arc_clone d = some d') :
    d.alloc_ref_count ≤ USIZE_MAX / 2 ∧ d.data_ref_count ≤ USIZE_MAX / 2 ∧
    d' = ⟨d.data_ref_count + 1, d.alloc_ref_count + 1, d.data⟩ := by
  unfold ArcData.arc_clone at h
  cases hw : ArcData.weak_clone d with
  | none => rw [hw] at h; cases h
  | some d1 =>
    rw [hw] at h
    obtain ⟨hle, hd1⟩ := weak_clone_spec hw
    subst hd1
    simp only [Option.some_bind] at h
    split at h
    · cases h
    · next hle2 =>
      push_neg at hle2
      injection h with h2
      refine ⟨hle, by simpa using hle2, ?_⟩
      rw [← h2]
      simp [mod_add_one (by simpa using hle2)]

theorem arc_clone_none_iff {T : Type} {d : ArcData T} :
    ArcData.arc_clone d = none ↔
      USIZE_MAX / 2 < d.alloc_ref_count ∨ USIZE_MAX / 2 < d.data_ref_count := by
  unfold ArcData.arc_clone
  cases hw : ArcData.weak_clone d with
  | none =>
    simp [weak_clone_none_iff.mp hw]
  | some d1 =>
    obtain ⟨hle, hd1⟩ := weak_clone_spec hw
    subst hd1
    simp only [Option.some_bind]
    split
    · next h2 => simp [h2, Nat.not_lt.mpr hle]
    · next h2 =>
      push_neg at h2
      simp_all [Nat.not_lt.mpr hle, Nat.not_lt.mpr h2]

theorem upgrade_gone_iff {T : Type} {d : ArcData T} :
    ArcData.upgrade d = .gone ↔ d.data_ref_count = 0 := by
  unfold ArcData.upgrade
  split
  · next h => simp [h]
  · next h =>
    split
    · simp [h]
    · split <;> simp [h]

theorem upgrade_some_spec {T : Type} {d d' : ArcData T}
    (h : ArcData.upgrade d = .upgraded d') :
    1 ≤ d.data_ref_count ∧ d.data_ref_count ≤ USIZE_MAX / 2 ∧
    d.alloc_ref_count ≤ USIZE_MAX / 2 ∧
    d' = ⟨d.data_ref_count + 1, d.alloc_ref_count + 1, d.data⟩ := by
  unfold ArcData.upgrade at h
  split at h
  · cases h
  · next h0 =>
    split at h
    · cases h
    · next hhalf =>
      push_neg at hhalf
      cases hw : ArcData.weak_clone
          { d with
            data_ref_count := (d.data_ref_count + 1) % USIZE_MOD } with
      | none => rw [hw] at h; cases h
      | some dm =>
        rw [hw] at h
        injection h with h2
        obtain ⟨hle, hdm⟩ := weak_clone_spec hw
        subst hdm h2
        refine ⟨by omega, hhalf, by simpa using hle, ?_⟩
        simp [mod_add_one hhalf]

theorem upgrade_succeeds {T : Type} {d : ArcData T}
    (h1 : 1 ≤ d.data_ref_count) (h2 : d.data_ref_count ≤ USIZE_MAX / 2)
    (h3 : d.alloc_ref_count ≤ USIZE_MAX / 2) :
    ArcData.upgrade d =
      .upgraded ⟨d.data_ref_count + 1, d.alloc_ref_count + 1, d.data⟩ := by
  unfold ArcData.upgrade ArcData.weak_clone
  rw [if_neg (by omega), if_neg (by omega)]
  simp [mod_add_one h2, mod_add_one h3, Nat.not_lt.mpr h3]

theorem weak_drop_spec {T : Type} {d : ArcData T}
    (h1 : 1 ≤ d.alloc_ref_count) (h2 : d.alloc_ref_count ≤ USIZE_MAX / 2 + 1) :
    ArcData.weak_drop d =
      if d.alloc_ref_count = 1 then none
      else some ⟨d.data_ref_count, d.alloc_ref_count - 1, d.data⟩ := by
  unfold ArcData.weak_drop
  split
  · rfl
  · rw [mod_sub_one h1 h2]

theorem arc_drop_spec {T : Type} {d : ArcData T}
    (h1 : 1 ≤ d.data_ref_count) (h2 : d.data_ref_count ≤ USIZE_MAX / 2 + 1)
    (h3 : 1 ≤ d.alloc_ref_count) (h4 : d.alloc_ref_count ≤ USIZE_MAX / 2 + 1) :
    ArcData.arc_drop d =
      if d.alloc_ref_count = 1 then none
      else some ⟨d.data_ref_count - 1, d.alloc_ref_count - 1,
        if d.data_ref_count = 1 then none else d.data⟩ := by
  unfold ArcData.arc_drop ArcData.weak_drop
  dsimp only
  by_cases hone : d.alloc_ref_count = 1
  · rw [if_pos hone, if_pos hone]
  · rw [if_neg hone, if_neg hone, mod_sub_one h1 h2, mod_sub_one h3 h4]

/-! Invariant preservation. -/

theorem repInv_mk_some {T : Type} {a w : Nat} {d : ArcData T}
    (h : allocInv a w d) : repInv (⟨a, w, some d⟩ : ArcSys T) :=
  ⟨fun e he => by cases he; exact h, fun he => by cases he⟩

theorem repInv_mk_none {T : Type} {a w : Nat} (ha : a = 0) (hw : w = 0) :
    repInv (⟨a, w, none⟩ : ArcSys T) := by
  constructor
  · rintro e he
    cases he
  · intro h2
    exact ⟨ha, hw⟩

theorem allocInv_mk {T : Type} {a w drc arc : Nat} {dat : Option T}
    (h1 : drc = a) (h2 : arc = a + w) (h3 : dat.isSome = true ↔ 0 < a)
    (h4 : 0 < a + w) (h5 : a + w ≤ USIZE_MAX / 2 + 1) :
    allocInv a w (⟨drc, arc, dat⟩ : ArcData T) :=
  ⟨h1, h2, h3, h4, h5⟩

theorem arc_sys_new_repInv {T : Type} (v : T) : repInv (arc_sys_new v) :=
  repInv_mk_some (allocInv_mk rfl rfl (by simp) (by omega) (by omega))

theorem repInv_claimInv {T : Type} {s : ArcSys T} (h : repInv s) :
    claimInv s := by
  rintro d hd
  obtain ⟨h1, h2, h3, h4, h5⟩ := h.1 d hd
  refine ⟨?_, by omega, by omega⟩
  rw [h1]
  exact h3

theorem arcStep_preserves_repInv {T : Type} {s s' : ArcSys T}
    (hinv : repInv s) (hstep : ArcStep T s s') : repInv s' := by
  obtain ⟨hsome, hnone⟩ := hinv
  cases hstep with
  | clone_arc d d' halloc ha hc =>
    obtain ⟨h1, h2, h3, h4, h5⟩ := hsome d halloc
    obtain ⟨hb1, hb2, hd'⟩ := arc_clone_spec hc
    subst hd'
    exact repInv_mk_some (allocInv_mk (by omega) (by omega)
      ⟨fun _ => by omega, fun _ => h3.mpr (by omega)⟩ (by omega) (by omega))
  | clone_weak d d' halloc hw hc =>
    obtain ⟨h1, h2, h3, h4, h5⟩ := hsome d halloc
    obtain ⟨hb1, hd'⟩ := weak_clone_spec hc
    subst hd'
    exact repInv_mk_some (allocInv_mk (by omega) (by omega) h3 (by omega)
      (by omega))
  | downgrade d d' halloc ha hc =>
    obtain ⟨h1, h2, h3, h4, h5⟩ := hsome d halloc
    obtain ⟨hb1, hd'⟩ := weak_clone_spec hc
    subst hd'
    exact repInv_mk_some (allocInv_mk (by omega) (by omega) h3 (by omega)
      (by omega))
  | upgrade_some d d' halloc hw hc =>
    obtain ⟨h1, h2, h3, h4, h5⟩ := hsome d halloc
    obtain ⟨hb1, hb2, hb3, hd'⟩ := upgrade_some_spec hc
    subst hd'
    exact repInv_mk_some (allocInv_mk (by omega) (by omega)
      ⟨fun _ => by omega, fun _ => h3.mpr (by omega)⟩ (by omega) (by omega))
  | upgrade_gone d halloc hw hc =>
    exact ⟨hsome, hnone⟩
  | get_mut_step d halloc ha =>
    exact repInv_mk_some (hsome d halloc)
  | drop_arc d halloc ha =>
    obtain ⟨h1, h2, h3, h4, h5⟩ := hsome d halloc
    have hspec := arc_drop_spec (d := d) (by omega) (by omega) (by omega)
      (by omega)
    rw [show (⟨s.arcs - 1, s.weaks, ArcData.arc_drop d⟩ : ArcSys T) =
        ⟨s.arcs - 1, s.weaks,
          if d.alloc_ref_count = 1 then none
          else some ⟨d.data_ref_count - 1, d.alloc_ref_count - 1,
            if d.data_ref_count = 1 then none else d.data⟩⟩ by rw [hspec]]
    split
    · next hone => exact repInv_mk_none (by omega) (by omega)
    · next hone =>
      refine repInv_mk_some (allocInv_mk (by omega) (by omega) ?_ (by omega)
        (by omega))
      by_cases hdc : d.data_ref_count = 1
      · rw [if_pos hdc]
        simp only [Option.isSome_none, Bool.false_eq_true, false_iff]
        omega
      · rw [if_neg hdc]
        exact ⟨fun hh => by have := h3.mp hh; omega,
          fun hh => h3.mpr (by omega)⟩
  | drop_weak d halloc hw =>
    obtain ⟨h1, h2, h3, h4, h5⟩ := hsome d halloc
    have hspec := weak_drop_spec (d := d) (by omega) (by omega)
    rw [show (⟨s.arcs, s.weaks - 1, ArcData.weak_drop d⟩ : ArcSys T) =
        ⟨s.arcs, s.weaks - 1,
          if d.alloc_ref_count = 1 then none
          else some ⟨d.data_ref_count, d.alloc_ref_count - 1, d.data⟩⟩ by
      rw [hspec]]
    split
    · next hone => exact repInv_mk_none (by omega) (by omega)
    · next hone =>
      exact repInv_mk_some (allocInv_mk (by omega) (by omega) h3 (by omega)
        (by omega))

/-- C1: every Arc/Weak operation performed through a live handle —
`Arc::new`, `Arc::clone`, `Weak::clone`, `downgrade`, `upgrade`,
`get_mut` and the two destructors — preserves the representation
invariant, and in every state it implies the specified counting
invariant: payload present iff `data_ref_count > 0`, allocation alive
with `alloc_ref_count > 0`, and `alloc_ref_count >= data_ref_count`. -/
theorem arc_operations_preserve_invariants {T : Type} (v : T)
    (s s' : ArcSys T) (hinv : repInv s) (hstep : ArcStep T s s') :
    repInv s' ∧ claimInv s' ∧ repInv (arc_sys_new v) ∧
      claimInv (arc_sys_new v) :=
  have h' := arcStep_preserves_repInv hinv hstep
  ⟨h', repInv_claimInv h', arc_sys_new_repInv v,
    repInv_claimInv (arc_sys_new_repInv v)⟩

/-- C4: `Weak::upgrade` returns `None` exactly when the observed
`data_ref_count` is zero (and, under the invariant, exactly when no
`Arc` is alive); on success it increments `data_ref_count` and
`alloc_ref_count` by one and returns a new `Arc` to the same allocation
(payload untouched); with a live `Weak` and headroom below the overflow
guard it succeeds exactly while at least one `Arc` is alive, and returns
`None` after the last `Arc` is dropped even though `Weak`s remain. -/
theorem weak_upgrade_characterization {T : Type} (s : ArcSys T)
    (d : ArcData T) (hinv : repInv s) (halloc : s.alloc = some d)
    (hw : 1 ≤ s.weaks) (hbound : s.arcs + s.weaks ≤ USIZE_MAX / 2) :
    (ArcData.upgrade d = .gone ↔ d.data_ref_count = 0) ∧
    (d.data_ref_count = 0 ↔ s.arcs = 0) ∧
    (∀ d', ArcData.upgrade d = .upgraded d' →
      d'.data_ref_count = d.data_ref_count + 1 ∧
      d'.alloc_ref_count = d.alloc_ref_count + 1 ∧ d'.data = d.data) ∧
    ((∃ d', ArcData.upgrade d = .upgraded d') ↔ 1 ≤ s.arcs) := by
  obtain ⟨h1, h2, h3, h4, h5⟩ := hinv.1 d halloc
  refine ⟨upgrade_gone_iff, by omega, ?_, ?_⟩
  · intro d' hu
    obtain ⟨hb1, hb2, hb3, hd'⟩ := upgrade_some_spec hu
    subst hd'
    exact ⟨rfl, rfl, rfl⟩
  · constructor
    · rintro ⟨d', hu⟩
      have := (upgrade_some_spec hu).1
      omega
    · intro ha
      exact ⟨_, upgrade_succeeds (by omega) (by omega) (by omega)⟩

/-- Witness for C4: upgrading the only `Weak` while one `Arc` lives. -/
theorem weak_upgrade_characterization_witness :
    ∃ d', ArcData.upgrade (⟨1, 2, some 0⟩ : ArcData Nat) = .upgraded d' :=
  ((weak_upgrade_characterization
      (⟨1, 1, some (⟨1, 2, some 0⟩ : ArcData Nat)⟩ : ArcSys Nat)
      ⟨1, 2, some 0⟩
      (repInv_mk_some (allocInv_mk rfl rfl (by decide) (by decide)
        (by decide)))
      rfl (by decide) (by decide)).2.2.2).mpr (by decide)

/-- C5: `Arc::get_mut` hands out the payload exactly when
`alloc_ref_count == 1` — which under the invariant means exactly one
`Arc` and no `Weak` exist anywhere — and returns `None` otherwise,
without looping and without modifying the state (hence neither
counter). -/
theorem arc_get_mut_exclusive {T : Type} (s : ArcSys T) (d : ArcData T)
    (hinv : repInv s) (halloc : s.alloc = some d) (ha : 1 ≤ s.arcs) :
    ((∃ v, (ArcData.get_mut d).1 = .excl v) ↔ d.alloc_ref_count = 1) ∧
    (d.alloc_ref_count = 1 ↔ s.arcs = 1 ∧ s.weaks = 0) ∧
    (d.alloc_ref_count ≠ 1 → (ArcData.get_mut d).1 = .shared) ∧
    ((ArcData.get_mut d).2 = d) ∧
    (∀ v, d.data = some v → d.alloc_ref_count = 1 →
      (ArcData.get_mut d).1 = .excl v) := by
  obtain ⟨h1, h2, h3, h4, h5⟩ := hinv.1 d halloc
  refine ⟨?_, by omega, ?_, rfl, ?_⟩
  · constructor
    · rintro ⟨v, hv⟩
      by_contra hne
      unfold ArcData.get_mut at hv
      dsimp only at hv
      rw [if_neg hne] at hv
      cases hv
    · intro hone
      have hdata : d.data.isSome = true := h3.mpr (by omega)
      cases hd : d.data with
      | none => rw [hd] at hdata; cases hdata
      | some v =>
        refine ⟨v, ?_⟩
        unfold ArcData.get_mut
        dsimp only
        rw [if_pos hone, hd]
  · intro hne
    unfold ArcData.get_mut
    dsimp only
    rw [if_neg hne]
  · intro v hv hone
    unfold ArcData.get_mut
    dsimp only
    rw [if_pos hone, hv]

/-- Witness for C5: the single `Arc` of a fresh allocation gets
exclusive access. -/
theorem arc_get_mut_exclusive_witness :
    ∃ v, (ArcData.get_mut (⟨1, 1, some 7⟩ : ArcData Nat)).1 = .excl v :=
  ((arc_get_mut_exclusive
      (⟨1, 0, some (⟨1, 1, some 7⟩ : ArcData Nat)⟩ : ArcSys Nat)
      ⟨1, 1, some 7⟩
      (repInv_mk_some (allocInv_mk rfl rfl (by decide) (by decide)
        (by decide)))
      rfl (by decide)).1).mpr rfl

/-- C7: `Clone for Arc` aborts the process — returning no new `Arc` —
exactly when the pre-increment value of either counter exceeds
`usize::MAX / 2`; otherwise it increments both `data_ref_count` and
`alloc_ref_count` by one, leaving the payload untouched. -/
theorem arc_clone_increments_or_aborts {T : Type} (d : ArcData T) :
    (ArcData.arc_clone d = none ↔
      USIZE_MAX / 2 < d.alloc_ref_count ∨
        USIZE_MAX / 2 < d.data_ref_count) ∧
    (∀ d', ArcData.arc_clone d = some d' →
      d'.data_ref_count = d.data_ref_count + 1 ∧
      d'.alloc_ref_count = d.alloc_ref_count + 1 ∧ d'.data = d.data) := by
  refine ⟨arc_clone_none_iff, ?_⟩
  intro d' h
  obtain ⟨hb1, hb2, hd'⟩ := arc_clone_spec h
  subst hd'
  exact ⟨rfl, rfl, rfl⟩

/-- Witness for C7: cloning the `Arc` of a fresh allocation increments
both counters from 1 to 2. -/
theorem arc_clone_increments_or_aborts_witness :
    (⟨2, 2, some 0⟩ : ArcData Nat).data_ref_count =
        (⟨1, 1, some 0⟩ : ArcData Nat).data_ref_count + 1 ∧
      (⟨2, 2, some 0⟩ : ArcData Nat).alloc_ref_count =
        (⟨1, 1, some 0⟩ : ArcData Nat).alloc_ref_count + 1 ∧
      (⟨2, 2, some 0⟩ : ArcData Nat).data =
        (⟨1, 1, some 0⟩ : ArcData Nat).data :=
  (arc_clone_increments_or_aborts (⟨1, 1, some 0⟩ : ArcData Nat)).2
    ⟨2, 2, some 0⟩ (by decide)

/-- Witness for C1: dropping the only `Arc` of a fresh allocation. -/
theorem arc_operations_preserve_invariants_witness :
    repInv (⟨0, 0, none⟩ : ArcSys Nat) ∧ claimInv (⟨0, 0, none⟩ : ArcSys Nat) ∧
      repInv (arc_sys_new 0) ∧ claimInv (arc_sys_new 0) :=
  arc_operations_preserve_invariants 0 (arc_sys_new 0)
    ⟨0, 0, none⟩
    (arc_sys_new_repInv 0)
    (ArcStep.drop_arc (arc_sys_new 0) ⟨1, 1, some 0⟩ rfl (by decide))

end AtomicsAndLocks
